import Mathlib

/-
Verification of the sequence-exclusion pipeline of
scripts/exclude_seqs_by_blast.py: the hit filter, the set reconciler,
the sequence extractor and the orchestration in main().

The script itself (under src/scripts) is translated directly.  The
library functions it imports from qiime.exclude_seqs_by_blast
(find_homologs, ids_from_fasta_lines, ids_to_seq_file) have no source
in this snapshot; those are modelled from the design document and are
marked as such in their doc comments.
-/

set_option autoImplicit false

namespace ExcludeSeqs

/-- A parsed sequence record: identifier and sequence data, as produced
by the Sequence Set Reader from a FASTA file. -/
structure SequenceRecord where
  id : String
  seq : String
deriving DecidableEq

/-- One row of tabular BLAST output, as produced by the Alignment Result
Parser: query identifier, subject identifier, percent identity,
alignment length, expectation value. -/
structure AlignmentRecord where
  query_id : String
  subject_id : String
  percent_identity : ℚ
  alignment_length : ℕ
  e_value : ℚ
deriving DecidableEq

/-- Modelled from the spec: ids_from_fasta_lines of
qiime.exclude_seqs_by_blast (no source in this snapshot) returns the
identifiers of the parsed query file, in input order. -/
def queryIds (db : List SequenceRecord) : List String :=
  db.map (fun r => r.id)

/-- Modelled from the spec: the Sequence Set Reader output gives, for a
query identifier, the length of the original query sequence; the first
record with a matching identifier is used. -/
def lookupLength (db : List SequenceRecord) (qid : String) : Option ℕ :=
  (db.find? (fun r => r.id == qid)).map (fun r => r.seq.length)

/-- Modelled from the spec: a single alignment record passes the hit
filter when its expectation value is at most the e-value cutoff and its
alignment length divided by the query length reaches the
percent-aligned cutoff. -/
def recordAccepted (qlen : ℕ) (e_cutoff percent_cutoff : ℚ) (r : AlignmentRecord) : Bool :=
  decide (r.e_value ≤ e_cutoff) &&
    decide (percent_cutoff ≤ (r.alignment_length : ℚ) / (qlen : ℚ))

/-- Modelled from the spec: record acceptance with the query length
looked up from the parsed query file; a record whose query identifier
is absent never counts as accepted (it is a fatal inconsistency
upstream). -/
def recordAcceptedIn (db : List SequenceRecord) (e_cutoff percent_cutoff : ℚ)
    (r : AlignmentRecord) : Bool :=
  match lookupLength db r.query_id with
  | none => false
  | some n => recordAccepted n e_cutoff percent_cutoff r

/-- Message of the fatal inconsistency raised when an alignment record
references a query identifier absent from the query file. -/
def consistencyErrorMsg (qid : String) : String :=
  "ConsistencyError: query id " ++ qid ++ " is absent from the query sequence file"

/-- Modelled from the spec: the record-processing loop of
qiime.exclude_seqs_by_blast.find_homologs (no source in this snapshot).
It walks the alignment records accumulating the set of query
identifiers seen in any record and the set with at least one accepted
record, aborting on a record whose query identifier cannot be looked
up in the query file. -/
def find_homologs_aux (db : List SequenceRecord) (e_cutoff percent_cutoff : ℚ) :
    List AlignmentRecord → Finset String → Finset String →
      Except String (Finset String × Finset String)
  | [], hit, acc => Except.ok (acc, hit \ acc)
  | r :: rs, hit, acc =>
    match lookupLength db r.query_id with
    | none => Except.error (consistencyErrorMsg r.query_id)
    | some n =>
      find_homologs_aux db e_cutoff percent_cutoff rs (insert r.query_id hit)
        (if recordAccepted n e_cutoff percent_cutoff r then insert r.query_id acc else acc)

/-- Modelled from the spec: the Hit Filter of
qiime.exclude_seqs_by_blast.find_homologs (no source in this snapshot).
Returns `(hit_ids, removed_hit_ids)`: the query identifiers with at
least one accepted alignment record, and those with alignment records
but none accepted. -/
def find_homologs (db : List SequenceRecord) (records : List AlignmentRecord)
    (e_cutoff percent_cutoff : ℚ) : Except String (Finset String × Finset String) :=
  find_homologs_aux db e_cutoff percent_cutoff records ∅ ∅

/-- Modelled from the spec: the Sequence Extractor
qiime.exclude_seqs_by_blast.ids_to_seq_file (no source in this
snapshot) writes exactly the records of the query file whose
identifier belongs to the given set, in the original file order. -/
def ids_to_seq_file (ids : Finset String) (db : List SequenceRecord) : List SequenceRecord :=
  db.filter (fun r => decide (r.id ∈ ids))

/-- Translated from the script, main(): the Set Reconciler line
`included_ids = set(all_ids) - hit_ids`. -/
def included_ids (all_ids : List String) (hit_ids : Finset String) : Finset String :=
  all_ids.toFinset \ hit_ids

/-- Identifier set of an extracted output file. -/
def outputIds (l : List SequenceRecord) : Finset String :=
  (l.map (fun r => r.id)).toFinset

/-- Translated from the script, script_info optional_options: the
scalar options consumed by main(), with the flags it branches on. -/
structure MainOptions where
  e_value : ℚ
  percent_aligned : ℚ
  no_clean : Bool
  max_hits : ℕ
  wordsize : ℕ
  no_format_db : Bool
deriving DecidableEq

/-- Translated from the script, script_info optional_options: the
default value of every optional scalar option and flag. -/
def default_options : MainOptions :=
  { e_value := 1 / 10 ^ 10
    percent_aligned := 97 / 100
    no_clean := false
    max_hits := 100
    wordsize := 28
    no_format_db := false }

/-- Translated from the script, main(): the five extensions of the
formatdb index artifact files, `db_ext` in the source. -/
def db_ext : List String :=
  [".nhr", ".nin", ".nsd", ".nsi", ".nsq"]

/-- Translated from the script, main():
`formatdb_filepaths = [subject_db + ext for ext in db_ext]`. -/
def formatdb_filepaths (subject_db : String) : List String :=
  db_ext.map (fun ext => subject_db ++ ext)

/-- Translated from the script, main(): the option_parser.error message
issued when a user-supplied index artifact file cannot be opened under
no_format_db. -/
def configErrorMsg (db_f : String) : String :=
  "Problem with -d and --no_format_db option combination: Cannot open the following user-supplied database file: " ++
    db_f ++ ". Consider running without --no_format_db to let formatdb generate these required files"

/-- Translated from the script, main(): the list comprehension
`[open(db_f, "U") for db_f in formatdb_filepaths]` opens the artifact
files in order and stops at the first IOError, leaving `db_f` bound to
the first unreadable path. -/
def firstUnreadable (readable : String → Bool) (paths : List String) : Option String :=
  paths.find? (fun p => !(readable p))

/-- Translated from the script, main(): the makedirs(outputdir) call
may raise OSError; the flag says whether it does on this run. -/
def makedirsResult (mkdir_fails : Bool) : Except Unit Unit :=
  if mkdir_fails then Except.error () else Except.ok ()

/-- Observable effects of one run of main(): whether the BLAST search
ran, whether the partitioned output files were written, and which
files the cleanup phase removed. -/
structure Trace where
  searched : Bool
  wrote_outputs : Bool
  removed : List String
deriving DecidableEq

/-- Outcome of a run of main(): normal completion, or an abort carrying
the effects performed before the fatal error. -/
inductive RunOutcome where
  | ok (t : Trace)
  | err (t : Trace) (msg : String)
deriving DecidableEq

/-- The effects of a run, whether it completed or aborted. -/
def RunOutcome.trace : RunOutcome → Trace
  | .ok t => t
  | .err t _ => t

/-- Whether the run completed fully successfully. -/
def RunOutcome.success : RunOutcome → Bool
  | .ok _ => true
  | .err _ _ => false

/-- Translated from the script, main(): the tail of the run, after the
BLAST search succeeded.  The output files are written, and the cleanup
branch removes the formatdb artifacts only when neither no_clean nor
no_format_db is set. -/
def finishRun (opts : MainOptions) (formatdb_paths : List String) : RunOutcome :=
  let removed :=
    if opts.no_clean then []
    else if opts.no_format_db then []
    else formatdb_paths
  RunOutcome.ok { searched := true, wrote_outputs := true, removed := removed }

/-- Translated from the script, main(): the linear pipeline.  When
no_format_db is set, the five index artifact files are read-checked
and the first unreadable one aborts the run before the search (when it
is unset, formatdb creates them).  The search plus hit filter runs
next; a fatal inconsistency there aborts before any output is
written.  The makedirs OSError is swallowed and the run proceeds
either way; the outputs are then written and cleanup runs. -/
def runMain (opts : MainOptions) (subject_db : String) (readable : String → Bool)
    (mkdir_fails : Bool) (querydb : List SequenceRecord)
    (blast_records : List AlignmentRecord) : RunOutcome :=
  let formatdb_paths := formatdb_filepaths subject_db
  let pre : Except String Unit :=
    if opts.no_format_db then
      match firstUnreadable readable formatdb_paths with
      | some db_f => Except.error (configErrorMsg db_f)
      | none => Except.ok ()
    else Except.ok ()
  match pre with
  | Except.error msg =>
    RunOutcome.err { searched := false, wrote_outputs := false, removed := [] } msg
  | Except.ok _ =>
    match find_homologs querydb blast_records opts.e_value opts.percent_aligned with
    | Except.error msg =>
      RunOutcome.err { searched := true, wrote_outputs := false, removed := [] } msg
    | Except.ok _ =>
      match makedirsResult mkdir_fails with
      | Except.error _ => finishRun opts formatdb_paths
      | Except.ok _ => finishRun opts formatdb_paths

/-- Concrete query record used to exercise the pipeline. -/
def wSeq1 : SequenceRecord := { id := "Q1", seq := "ACGT" }

/-- Second concrete query record. -/
def wSeq2 : SequenceRecord := { id := "Q2", seq := "ACGT" }

/-- A concrete two-record query file. -/
def wDb : List SequenceRecord := [wSeq1, wSeq2]

/-- A concrete alignment record that passes both cutoffs for Q1. -/
def wRec : AlignmentRecord :=
  { query_id := "Q1", subject_id := "S1", percent_identity := 100,
    alignment_length := 4, e_value := 0 }

/-- A concrete alignment record whose query identifier is absent from
the query file. -/
def wBadRec : AlignmentRecord :=
  { query_id := "QX", subject_id := "S1", percent_identity := 100,
    alignment_length := 4, e_value := 0 }

/-- The identifier of the first query record. -/
def q1 : String := "Q1"

/-- Expected accepted set for the concrete run. -/
def wHit : Finset String := {"Q1"}

/-- A concrete subject database path. -/
def subj : String := "subjectdb"

/-- A file system on which every path opens. -/
def allReadable : String → Bool := fun _ => true

/-- A file system on which no path opens. -/
def noneReadable : String → Bool := fun _ => false

/-- Options of a run that builds the index (no_format_db unset). -/
def wOptsBuild : MainOptions := default_options

/-- Options of a run that skips the index build (no_format_db set). -/
def wOptsSkip : MainOptions := { default_options with no_format_db := true }

theorem recordAcceptedIn_iff (db : List SequenceRecord) (e p : ℚ) (r : AlignmentRecord) :
    recordAcceptedIn db e p r = true ↔
      ∃ n, lookupLength db r.query_id = some n ∧
        r.e_value ≤ e ∧ p ≤ (r.alignment_length : ℚ) / (n : ℚ) := by
  unfold recordAcceptedIn
  cases hl : lookupLength db r.query_id with
  | none => simp
  | some n => simp [recordAccepted]

theorem mem_queryIds_of_mem (db : List SequenceRecord) (r : SequenceRecord) (hr : r ∈ db) :
    r.id ∈ (queryIds db).toFinset := by
  simp only [queryIds, List.mem_toFinset, List.mem_map]
  exact ⟨r, hr, rfl⟩

theorem lookupLength_isSome_mem (db : List SequenceRecord) (q : String)
    (h : (lookupLength db q).isSome = true) : q ∈ (queryIds db).toFinset := by
  unfold lookupLength at h
  cases hf : db.find? (fun r => r.id == q) with
  | none => rw [hf] at h; simp at h
  | some rc =>
    have hmem := List.mem_of_find?_eq_some hf
    have hp := List.find?_some hf
    have hq : rc.id = q := by simpa using hp
    rw [← hq]
    exact mem_queryIds_of_mem db rc hmem

theorem find_homologs_aux_ok_mem_accepted (db : List SequenceRecord) (e p : ℚ) :
    ∀ (rs : List AlignmentRecord) (hit acc A R : Finset String),
      find_homologs_aux db e p rs hit acc = Except.ok (A, R) →
      ∀ x, (x ∈ A ↔ x ∈ acc ∨ ∃ r ∈ rs, r.query_id = x ∧ recordAcceptedIn db e p r = true) := by
  intro rs
  induction rs with
  | nil =>
    intro hit acc A R h x
    simp only [find_homologs_aux, Except.ok.injEq, Prod.mk.injEq] at h
    obtain ⟨hA, hR⟩ := h
    subst hA
    simp
  | cons r rs ih =>
    intro hit acc A R h x
    simp only [find_homologs_aux] at h
    split at h
    · exact absurd h (by simp)
    · next n hl =>
      have hrin : recordAcceptedIn db e p r = recordAccepted n e p r := by
        simp [recordAcceptedIn, hl]
      rw [ih _ _ _ _ h x]
      simp only [List.mem_cons]
      by_cases hb : recordAccepted n e p r = true
      · rw [if_pos hb]
        constructor
        · rintro (hins | ⟨r1, hr1, hq1, hacc1⟩)
          · rcases Finset.mem_insert.mp hins with rfl | hx
            · exact Or.inr ⟨r, Or.inl rfl, rfl, by rw [hrin]; exact hb⟩
            · exact Or.inl hx
          · exact Or.inr ⟨r1, Or.inr hr1, hq1, hacc1⟩
        · rintro (hx | ⟨r1, hr1 | hr1, hq1, hacc1⟩)
          · exact Or.inl (Finset.mem_insert_of_mem hx)
          · subst hr1
            exact Or.inl (by rw [← hq1]; exact Finset.mem_insert_self _ acc)
          · exact Or.inr ⟨r1, hr1, hq1, hacc1⟩
      · rw [if_neg hb]
        constructor
        · rintro (hx | ⟨r1, hr1, hq1, hacc1⟩)
          · exact Or.inl hx
          · exact Or.inr ⟨r1, Or.inr hr1, hq1, hacc1⟩
        · rintro (hx | ⟨r1, hr1 | hr1, hq1, hacc1⟩)
          · exact Or.inl hx
          · subst hr1
            rw [hrin] at hacc1
            exact absurd hacc1 hb
          · exact Or.inr ⟨r1, hr1, hq1, hacc1⟩

theorem find_homologs_aux_ok_mem_removed (db : List SequenceRecord) (e p : ℚ) :
    ∀ (rs : List AlignmentRecord) (hit acc A R : Finset String),
      find_homologs_aux db e p rs hit acc = Except.ok (A, R) →
      ∀ x, (x ∈ R ↔ (x ∈ hit ∨ ∃ r ∈ rs, r.query_id = x) ∧ x ∉ A) := by
  intro rs
  induction rs with
  | nil =>
    intro hit acc A R h x
    simp only [find_homologs_aux, Except.ok.injEq, Prod.mk.injEq] at h
    obtain ⟨hA, hR⟩ := h
    subst hA
    subst hR
    simp [Finset.mem_sdiff]
  | cons r rs ih =>
    intro hit acc A R h x
    simp only [find_homologs_aux] at h
    split at h
    · exact absurd h (by simp)
    · next n hl =>
      rw [ih _ _ _ _ h x]
      simp only [List.mem_cons]
      constructor
      · rintro ⟨hins | ⟨r1, hr1, hq1⟩, hnA⟩
        · rcases Finset.mem_insert.mp hins with rfl | hx
          · exact ⟨Or.inr ⟨r, Or.inl rfl, rfl⟩, hnA⟩
          · exact ⟨Or.inl hx, hnA⟩
        · exact ⟨Or.inr ⟨r1, Or.inr hr1, hq1⟩, hnA⟩
      · rintro ⟨hx | ⟨r1, hr1 | hr1, hq1⟩, hnA⟩
        · exact ⟨Or.inl (Finset.mem_insert_of_mem hx), hnA⟩
        · subst hr1
          exact ⟨Or.inl (by rw [← hq1]; exact Finset.mem_insert_self _ hit), hnA⟩
        · exact ⟨Or.inr ⟨r1, hr1, hq1⟩, hnA⟩

theorem find_homologs_aux_ok_lookup (db : List SequenceRecord) (e p : ℚ) :
    ∀ (rs : List AlignmentRecord) (hit acc : Finset String)
      (out : Finset String × Finset String),
      find_homologs_aux db e p rs hit acc = Except.ok out →
      ∀ r ∈ rs, (lookupLength db r.query_id).isSome = true := by
  intro rs
  induction rs with
  | nil =>
    intro hit acc out _ r hr
    exact absurd hr (List.not_mem_nil r)
  | cons r rs ih =>
    intro hit acc out h r1 hr1
    simp only [find_homologs_aux] at h
    split at h
    · exact absurd h (by simp)
    · next n hl =>
      rcases List.mem_cons.mp hr1 with rfl | hr1tl
      · rw [hl]; rfl
      · exact ih _ _ _ h r1 hr1tl

theorem find_homologs_aux_error_of_bad (db : List SequenceRecord) (e p : ℚ) :
    ∀ (rs : List AlignmentRecord) (hit acc : Finset String),
      (∃ r ∈ rs, lookupLength db r.query_id = none) →
      ∃ q, (∃ r ∈ rs, r.query_id = q ∧ lookupLength db q = none) ∧
        find_homologs_aux db e p rs hit acc = Except.error (consistencyErrorMsg q) := by
  intro rs
  induction rs with
  | nil =>
    intro hit acc hbad
    obtain ⟨r, hr, _⟩ := hbad
    exact absurd hr (List.not_mem_nil r)
  | cons r rs ih =>
    intro hit acc hbad
    cases hl : lookupLength db r.query_id with
    | none =>
      refine ⟨r.query_id, ⟨r, List.mem_cons_self r rs, rfl, hl⟩, ?_⟩
      simp [find_homologs_aux, hl]
    | some n =>
      obtain ⟨r0, hr0, hr0none⟩ := hbad
      rcases List.mem_cons.mp hr0 with rfl | hr0tl
      · rw [hl] at hr0none
        cases hr0none
      · obtain ⟨q, ⟨r1, hr1, hq1, hqnone⟩, heq⟩ :=
          ih (insert r.query_id hit)
            (if recordAccepted n e p r then insert r.query_id acc else acc)
            ⟨r0, hr0tl, hr0none⟩
        refine ⟨q, ⟨r1, List.mem_cons_of_mem r hr1, hq1, hqnone⟩, ?_⟩
        simp only [find_homologs_aux, hl]
        exact heq

theorem wSeqLen : ("ACGT" : String).length = 4 := rfl

theorem wRun1 : find_homologs wDb [wRec] 1 (97 / 100) = Except.ok (wHit, ∅) := by
  simp [find_homologs, find_homologs_aux, wDb, wRec, wSeq1, wSeq2, lookupLength,
    recordAccepted, wHit, wSeqLen]
  norm_num

theorem wRun2 : find_homologs wDb [wRec] (1 / 2) 1 = Except.ok (wHit, ∅) := by
  simp [find_homologs, find_homologs_aux, wDb, wRec, wSeq1, wSeq2, lookupLength,
    recordAccepted, wHit, wSeqLen]

theorem wLookupQ1 : lookupLength wDb wRec.query_id = some 4 := by
  simp [lookupLength, wDb, wSeq1, wSeq2, wRec, wSeqLen]

theorem mem_outputIds_extract (S : Finset String) (db : List SequenceRecord) (x : String) :
    x ∈ outputIds (ids_to_seq_file S db) ↔ x ∈ (queryIds db).toFinset ∧ x ∈ S := by
  simp only [outputIds, ids_to_seq_file, queryIds, List.mem_toFinset, List.mem_map,
    List.mem_filter, decide_eq_true_eq]
  constructor
  · rintro ⟨r, ⟨hr, hrS⟩, rfl⟩
    exact ⟨⟨r, hr, rfl⟩, hrS⟩
  · rintro ⟨⟨r, hr, rfl⟩, hS⟩
    exact ⟨r, ⟨hr, hS⟩, rfl⟩

/-- C1: Partition completeness.  For every query file and every
accepted identifier set, the extraction pass for the accepted set
(matching.fna) and the one for the reconciled set
`included_ids = set(all_ids) - hit_ids` (non-matching.fna) together
reproduce, as identifier sets, exactly the identifiers of the query
file; the two outputs are disjoint, and every input record lands in
exactly one of the two outputs. -/
theorem partition_completeness (db : List SequenceRecord) (hit_ids : Finset String) :
    outputIds (ids_to_seq_file hit_ids db) ∪
        outputIds (ids_to_seq_file (included_ids (queryIds db) hit_ids) db) =
      (queryIds db).toFinset ∧
    Disjoint (outputIds (ids_to_seq_file hit_ids db))
      (outputIds (ids_to_seq_file (included_ids (queryIds db) hit_ids) db)) ∧
    ∀ r ∈ db,
      (r ∈ ids_to_seq_file hit_ids db ↔
        r ∉ ids_to_seq_file (included_ids (queryIds db) hit_ids) db) := by
  refine ⟨?_, ?_, ?_⟩
  · ext x
    simp only [Finset.mem_union, mem_outputIds_extract, included_ids, Finset.mem_sdiff]
    constructor
    · rintro (⟨hq, _⟩ | ⟨hq, _⟩) <;> exact hq
    · intro hq
      by_cases hS : x ∈ hit_ids
      · exact Or.inl ⟨hq, hS⟩
      · exact Or.inr ⟨hq, hq, hS⟩
  · rw [Finset.disjoint_left]
    intro x hx hx2
    rw [mem_outputIds_extract] at hx hx2
    have h2 := hx2.2
    simp only [included_ids, Finset.mem_sdiff] at h2
    exact h2.2 hx.2
  · intro r hr
    have hrq : r.id ∈ (queryIds db).toFinset := mem_queryIds_of_mem db r hr
    simp only [ids_to_seq_file, List.mem_filter, decide_eq_true_eq, included_ids,
      Finset.mem_sdiff]
    constructor
    · rintro ⟨_, hS⟩ ⟨_, _, hnS⟩
      exact hnS hS
    · intro hnot
      refine ⟨hr, ?_⟩
      by_contra hS
      exact hnot ⟨hr, hrq, hS⟩

/-- Witness of the partition completeness theorem at a concrete query
file and accepted set, with its record-level part instantiated at the
first query record. -/
theorem partition_completeness_witness :
    (outputIds (ids_to_seq_file wHit wDb) ∪
        outputIds (ids_to_seq_file (included_ids (queryIds wDb) wHit) wDb) =
      (queryIds wDb).toFinset) ∧
    (wSeq1 ∈ ids_to_seq_file wHit wDb ↔
      wSeq1 ∉ ids_to_seq_file (included_ids (queryIds wDb) wHit) wDb) :=
  ⟨(partition_completeness wDb wHit).1,
    (partition_completeness wDb wHit).2.2 wSeq1 (by decide)⟩

/-- C2: Set reconciliation.  On a successful run of the hit filter the
retained identifier set of the script is exactly
`set(all_ids) - hit_ids`, and every identifier of removed_hit_ids
(had a hit but failed filtering) lies in that retained set: the
rejected set does not participate in the subtraction. -/
theorem set_reconciliation (db : List SequenceRecord) (records : List AlignmentRecord)
    (e p : ℚ) (hit_ids removed_hit_ids : Finset String)
    (hok : find_homologs db records e p = Except.ok (hit_ids, removed_hit_ids)) :
    included_ids (queryIds db) hit_ids = (queryIds db).toFinset \ hit_ids ∧
    removed_hit_ids ⊆ included_ids (queryIds db) hit_ids := by
  have hok' : find_homologs_aux db e p records ∅ ∅ = Except.ok (hit_ids, removed_hit_ids) :=
    hok
  refine ⟨rfl, ?_⟩
  intro x hx
  rw [find_homologs_aux_ok_mem_removed db e p records ∅ ∅ hit_ids removed_hit_ids hok' x] at hx
  obtain ⟨hsrc, hnA⟩ := hx
  rcases hsrc with h0 | ⟨r, hr, hq⟩
  · exact absurd h0 (Finset.not_mem_empty x)
  · have hs := find_homologs_aux_ok_lookup db e p records ∅ ∅ _ hok' r hr
    rw [hq] at hs
    have hmem := lookupLength_isSome_mem db x hs
    simp only [included_ids, Finset.mem_sdiff]
    exact ⟨hmem, hnA⟩

/-- Witness of the set reconciliation theorem at a concrete run where
Q1 is accepted and nothing is rejected. -/
theorem set_reconciliation_witness :
    included_ids (queryIds wDb) wHit = (queryIds wDb).toFinset \ wHit ∧
      (∅ : Finset String) ⊆ included_ids (queryIds wDb) wHit :=
  set_reconciliation wDb [wRec] 1 (97 / 100) wHit ∅ wRun1

/-- C3: Hit acceptance rule.  On a successful run of the hit filter, a
query identifier lies in hit_ids exactly when some alignment record of
that query has expectation value at most the e-value cutoff and
alignment length over the looked-up query length at least the
percent-aligned cutoff. -/
theorem hit_acceptance_rule (db : List SequenceRecord) (records : List AlignmentRecord)
    (e p : ℚ) (hit_ids removed_hit_ids : Finset String)
    (hok : find_homologs db records e p = Except.ok (hit_ids, removed_hit_ids)) :
    ∀ x, x ∈ hit_ids ↔
      ∃ r ∈ records, r.query_id = x ∧
        ∃ n, lookupLength db r.query_id = some n ∧
          r.e_value ≤ e ∧ p ≤ (r.alignment_length : ℚ) / (n : ℚ) := by
  have hok' : find_homologs_aux db e p records ∅ ∅ = Except.ok (hit_ids, removed_hit_ids) :=
    hok
  intro x
  rw [find_homologs_aux_ok_mem_accepted db e p records ∅ ∅ hit_ids removed_hit_ids hok' x]
  constructor
  · rintro (h0 | ⟨r, hr, hq, hacc⟩)
    · exact absurd h0 (Finset.not_mem_empty x)
    · exact ⟨r, hr, hq, (recordAcceptedIn_iff db e p r).mp hacc⟩
  · rintro ⟨r, hr, hq, hex⟩
    exact Or.inr ⟨r, hr, hq, (recordAcceptedIn_iff db e p r).mpr hex⟩

/-- Witness of the hit acceptance rule: the concrete record for Q1
passes both cutoffs, so Q1 is in the accepted set of the concrete
run. -/
theorem hit_acceptance_rule_witness : q1 ∈ wHit :=
  (hit_acceptance_rule wDb [wRec] 1 (97 / 100) wHit ∅ wRun1 q1).mpr
    ⟨wRec, List.mem_cons_self wRec [], rfl, 4, wLookupQ1, by norm_num [wRec], by
      norm_num [wRec, wSeqLen]⟩

/-- C4: Threshold monotonicity.  For a fixed alignment-record set and
query file, a run with a smaller or equal e-value cutoff and a larger
or equal percent-aligned cutoff accepts a subset of the identifiers,
and its retained set `QueryUniverse - accepted` contains the other
run's retained set. -/
theorem threshold_monotonicity (db : List SequenceRecord) (records : List AlignmentRecord)
    (e1 p1 e2 p2 : ℚ) (A1 R1 A2 R2 : Finset String)
    (h1 : find_homologs db records e1 p1 = Except.ok (A1, R1))
    (h2 : find_homologs db records e2 p2 = Except.ok (A2, R2))
    (he : e2 ≤ e1) (hp : p1 ≤ p2) :
    A2 ⊆ A1 ∧ (queryIds db).toFinset \ A1 ⊆ (queryIds db).toFinset \ A2 := by
  have h1' : find_homologs_aux db e1 p1 records ∅ ∅ = Except.ok (A1, R1) := h1
  have h2' : find_homologs_aux db e2 p2 records ∅ ∅ = Except.ok (A2, R2) := h2
  have hsub : A2 ⊆ A1 := by
    intro x hx
    rw [find_homologs_aux_ok_mem_accepted db e2 p2 records ∅ ∅ A2 R2 h2' x] at hx
    rcases hx with h0 | ⟨r, hr, hq, hacc⟩
    · exact absurd h0 (Finset.not_mem_empty x)
    · rw [find_homologs_aux_ok_mem_accepted db e1 p1 records ∅ ∅ A1 R1 h1' x]
      refine Or.inr ⟨r, hr, hq, ?_⟩
      rw [recordAcceptedIn_iff] at hacc ⊢
      obtain ⟨n, hn, hev, hpa⟩ := hacc
      exact ⟨n, hn, le_trans hev he, le_trans hp hpa⟩
  refine ⟨hsub, ?_⟩
  intro x hx
  rw [Finset.mem_sdiff] at hx ⊢
  exact ⟨hx.1, fun hxA2 => hx.2 (hsub hxA2)⟩

/-- Witness of threshold monotonicity at a concrete pair of runs whose
cutoffs tighten from (1, 0.97) to (0.5, 1). -/
theorem threshold_monotonicity_witness :
    wHit ⊆ wHit ∧ (queryIds wDb).toFinset \ wHit ⊆ (queryIds wDb).toFinset \ wHit :=
  threshold_monotonicity wDb [wRec] 1 (97 / 100) (1 / 2) 1 wHit ∅ wHit ∅
    wRun1 wRun2 (by norm_num) (by norm_num)

theorem find?_eq_some_of_exists {α : Type} (p : α → Bool) (l : List α)
    (h : ∃ x ∈ l, p x = true) : ∃ q, l.find? p = some q ∧ q ∈ l ∧ p q = true := by
  induction l with
  | nil =>
    obtain ⟨x, hx, _⟩ := h
    exact absurd hx (List.not_mem_nil x)
  | cons a l ih =>
    cases ha : p a with
    | true =>
      exact ⟨a, List.find?_cons_of_pos l ha, List.mem_cons_self a l, ha⟩
    | false =>
      obtain ⟨x, hx, hpx⟩ := h
      rcases List.mem_cons.mp hx with rfl | hxl
      · rw [ha] at hpx
        cases hpx
      · obtain ⟨q, hf, hq, hpq⟩ := ih ⟨x, hxl, hpx⟩
        refine ⟨q, ?_, List.mem_cons_of_mem a hq, hpq⟩
        rw [List.find?_cons_of_neg l (by simp [ha]), hf]

/-- C5: Consistency check firing.  On a run that reaches the search, an
alignment record whose query identifier is absent from the query file
makes the whole run abort with the ConsistencyError naming that
identifier: no output files are written and nothing is silently
subtracted away. -/
theorem consistency_check_firing (opts : MainOptions) (subject_db : String)
    (readable : String → Bool) (mkdir_fails : Bool) (querydb : List SequenceRecord)
    (blast_records : List AlignmentRecord)
    (hpre : opts.no_format_db = false ∨
      firstUnreadable readable (formatdb_filepaths subject_db) = none)
    (hbad : ∃ r ∈ blast_records, lookupLength querydb r.query_id = none) :
    ∃ q, (∃ r ∈ blast_records, r.query_id = q ∧ lookupLength querydb q = none) ∧
      runMain opts subject_db readable mkdir_fails querydb blast_records =
        RunOutcome.err { searched := true, wrote_outputs := false, removed := [] }
          (consistencyErrorMsg q) := by
  obtain ⟨q, hq, herr⟩ := find_homologs_aux_error_of_bad querydb opts.e_value
    opts.percent_aligned blast_records ∅ ∅ hbad
  have herr' : find_homologs querydb blast_records opts.e_value opts.percent_aligned =
      Except.error (consistencyErrorMsg q) := herr
  refine ⟨q, hq, ?_⟩
  rcases hpre with hn | hfu
  · simp [runMain, hn, herr']
  · simp [runMain, hfu, herr']

/-- Witness of the consistency check: a concrete record referencing the
absent identifier QX aborts the concrete run. -/
theorem consistency_check_firing_witness :
    ∃ q, (∃ r ∈ [wBadRec], r.query_id = q ∧ lookupLength wDb q = none) ∧
      runMain wOptsBuild subj allReadable false wDb [wBadRec] =
        RunOutcome.err { searched := true, wrote_outputs := false, removed := [] }
          (consistencyErrorMsg q) :=
  consistency_check_firing wOptsBuild subj allReadable false wDb [wBadRec] (Or.inl rfl)
    ⟨wBadRec, List.mem_cons_self wBadRec [], by simp [lookupLength, wDb, wSeq1, wSeq2, wBadRec]⟩

/-- C6: Skip-indexing precondition.  When no_format_db is set the run
checks the five index artifact files subject_db + ".nhr"/".nin"/
".nsd"/".nsi"/".nsq"; if any is unreadable the run stops before the
search with the ConfigurationError naming an unreadable file. -/
theorem skip_indexing_precondition (opts : MainOptions) (subject_db : String)
    (readable : String → Bool) (mkdir_fails : Bool) (querydb : List SequenceRecord)
    (blast_records : List AlignmentRecord)
    (hn : opts.no_format_db = true)
    (hbad : ∃ fp ∈ formatdb_filepaths subject_db, readable fp = false) :
    formatdb_filepaths subject_db =
      [subject_db ++ ".nhr", subject_db ++ ".nin", subject_db ++ ".nsd",
        subject_db ++ ".nsi", subject_db ++ ".nsq"] ∧
    ∃ fp, fp ∈ formatdb_filepaths subject_db ∧ readable fp = false ∧
      runMain opts subject_db readable mkdir_fails querydb blast_records =
        RunOutcome.err { searched := false, wrote_outputs := false, removed := [] }
          (configErrorMsg fp) := by
  refine ⟨by simp [formatdb_filepaths, db_ext], ?_⟩
  obtain ⟨fp0, hfp0, hfp0r⟩ := hbad
  obtain ⟨q, hfind, hqmem, hqp⟩ :=
    find?_eq_some_of_exists (fun p => !(readable p)) (formatdb_filepaths subject_db)
      ⟨fp0, hfp0, by simp [hfp0r]⟩
  have hfu : firstUnreadable readable (formatdb_filepaths subject_db) = some q := hfind
  refine ⟨q, hqmem, by simpa using hqp, ?_⟩
  simp [runMain, hn, hfu]

/-- Witness of the skip-indexing precondition on a file system where
nothing is readable. -/
theorem skip_indexing_precondition_witness :
    formatdb_filepaths subj =
      [subj ++ ".nhr", subj ++ ".nin", subj ++ ".nsd", subj ++ ".nsi", subj ++ ".nsq"] ∧
    ∃ fp, fp ∈ formatdb_filepaths subj ∧ noneReadable fp = false ∧
      runMain wOptsSkip subj noneReadable false wDb [wRec] =
        RunOutcome.err { searched := false, wrote_outputs := false, removed := [] }
          (configErrorMsg fp) :=
  skip_indexing_precondition wOptsSkip subj noneReadable false wDb [wRec] rfl
    ⟨subj ++ ".nhr", by simp [formatdb_filepaths, db_ext], rfl⟩

/-- C7: Cleanup condition.  When the run built the index itself
(no_format_db unset), the artifact files are removed exactly when the
run completes fully successfully and no_clean is unset; an aborted run
or a no_clean run removes nothing. -/
theorem cleanup_condition (opts : MainOptions) (subject_db : String)
    (readable : String → Bool) (mkdir_fails : Bool) (querydb : List SequenceRecord)
    (blast_records : List AlignmentRecord)
    (hn : opts.no_format_db = false) :
    (runMain opts subject_db readable mkdir_fails querydb blast_records).trace.removed =
      (if (runMain opts subject_db readable mkdir_fails querydb blast_records).success &&
          !opts.no_clean
        then formatdb_filepaths subject_db else []) := by
  cases hfh : find_homologs querydb blast_records opts.e_value opts.percent_aligned with
  | error msg =>
    simp [runMain, hn, hfh, RunOutcome.trace, RunOutcome.success]
  | ok pr =>
    cases hmk : mkdir_fails <;>
      cases hnc : opts.no_clean <;>
        simp [runMain, hn, hfh, makedirsResult, finishRun, hnc,
          RunOutcome.trace, RunOutcome.success]

/-- Witness of the cleanup condition on a concrete fully successful run
with no_clean unset: the artifacts are removed. -/
theorem cleanup_condition_witness :
    (runMain wOptsBuild subj allReadable false wDb [wRec]).trace.removed =
      (if (runMain wOptsBuild subj allReadable false wDb [wRec]).success &&
          !wOptsBuild.no_clean
        then formatdb_filepaths subj else []) :=
  cleanup_condition wOptsBuild subj allReadable false wDb [wRec] rfl

/-- C8: Default configuration values.  With no explicit options the
e-value cutoff is 1e-10, the percent-aligned cutoff 0.97,
max-hits-per-query 100, word size 28, and both flags are off. -/
theorem default_configuration :
    default_options.e_value = 1 / 10 ^ 10 ∧
    default_options.percent_aligned = 97 / 100 ∧
    default_options.max_hits = 100 ∧
    default_options.wordsize = 28 ∧
    default_options.no_format_db = false ∧
    default_options.no_clean = false :=
  ⟨rfl, rfl, rfl, rfl, rfl, rfl⟩

/-- C9: The makedirs OSError is swallowed; a run on which makedirs
raises is identical, outcome and effects, to one on which it
succeeds. -/
theorem makedirs_oserror_swallowed (opts : MainOptions) (subject_db : String)
    (readable : String → Bool) (querydb : List SequenceRecord)
    (blast_records : List AlignmentRecord) :
    runMain opts subject_db readable true querydb blast_records =
      runMain opts subject_db readable false querydb blast_records := by
  simp [runMain, makedirsResult]

/-- C10: Pre-existing index artifacts are never deleted.  When
no_format_db is set the cleanup phase removes no file, on every
outcome and regardless of no_clean. -/
theorem preexisting_artifacts_untouched (opts : MainOptions) (subject_db : String)
    (readable : String → Bool) (mkdir_fails : Bool) (querydb : List SequenceRecord)
    (blast_records : List AlignmentRecord)
    (hn : opts.no_format_db = true) :
    (runMain opts subject_db readable mkdir_fails querydb blast_records).trace.removed = [] := by
  cases hfu : firstUnreadable readable (formatdb_filepaths subject_db) with
  | some p =>
    simp [runMain, hn, hfu, RunOutcome.trace]
  | none =>
    cases hfh : find_homologs querydb blast_records opts.e_value opts.percent_aligned with
    | error msg =>
      simp [runMain, hn, hfu, hfh, RunOutcome.trace]
    | ok pr =>
      cases hmk : mkdir_fails <;>
        cases hnc : opts.no_clean <;>
          simp [runMain, hn, hfu, hfh, makedirsResult, finishRun, hnc, RunOutcome.trace]

/-- Witness that a concrete skip-index run removes nothing even with
no_clean unset. -/
theorem preexisting_artifacts_untouched_witness :
    (runMain wOptsSkip subj allReadable false wDb [wRec]).trace.removed = [] :=
  preexisting_artifacts_untouched wOptsSkip subj allReadable false wDb [wRec] rfl

end ExcludeSeqs
